import Mathlib

/-!
Verification development for the PHEnergyCorrelator bin-selection and
aggregation core.  This file gives a shallow embedding of the code in
src/include/PHCorrelatorAnaTools.h, src/include/PHCorrelatorBins.h and
src/include/PHCorrelatorCalculator.h, and proves or refutes the frozen
claims about it.  Real-valued quantities are modelled over ℝ (with Lean's
total-function conventions for division noted where they matter); jet and
constituent kinematic inputs are modelled over ℚ so that bin comparisons
are decidable, and are cast to ℝ where geometry needs them.
-/

open scoped Classical

namespace PHEnergyCorrelator

/-- Modelled from the spec: `Type::Axis` comes from a types header that is
not under src/.  The two spacing modes (linear and logarithmic) are named
`Norm` and `Log` as used by the source (`Type::Norm`, `Type::Log`). -/
inductive Axis
| Norm
| Log
deriving DecidableEq

/-- Modelled from the spec: `Type::Weight` comes from a types header that is
not under src/.  The source switches over `Type::E`, `Type::Et`, `Type::Pt`
with a default branch; `Other` stands for any unrecognized weight type. -/
inductive Weight
| E
| Et
| Pt
| Other
deriving DecidableEq

/-- Modelled from the spec: the spin-pattern tags `Type::PPBUYU`, ...,
`Type::PABD` come from a types header that is not under src/.  Following the
spec (§3 SpinState, §9), the pattern is a closed variant over the six
recognized configurations plus an explicit `unrecognized` case standing for
every integer the source's `switch` default branch would catch. -/
inductive SpinPattern
| ppbuyu
| ppbdyu
| ppbuyd
| ppbdyd
| pabu
| pabd
| unrecognized
deriving DecidableEq

/-- Modelled from the spec: `Type::HistIndex` (the spec's BinIndex) is a
tuple of four ordinal coordinates {pt-bin, charge-fraction-bin, charge-bin,
spin-state-bin}; its header is not under src/.  Field order matches the
constructor calls `Type::HistIndex(pt, cf, chrg, spin)` in the source. -/
structure HistIndex where
  pt : Nat
  cf : Nat
  chrg : Nat
  spin : Nat
deriving DecidableEq

/-- Modelled from the spec: `Type::Jet` (spec §3) — jet kinematics plus the
beam spin-pattern tag.  Its header is not under src/. -/
structure Jet where
  pt : ℚ
  cf : ℚ
  charge : ℚ
  eta : ℚ
  phi : ℚ
  pattern : SpinPattern

/-- Modelled from the spec: `Type::Cst` (spec §3) — a constituent described
relative to the jet axis.  Its header is not under src/. -/
structure Cst where
  z : ℚ
  jt : ℚ
  eta : ℚ
  phi : ℚ

/-- Modelled from the spec: the external 3-vector geometry primitive
(ROOT's TVector3; spec §6 declares it an assumed external collaborator). -/
structure V3 where
  x : ℝ
  y : ℝ
  z : ℝ

instance : Add V3 := ⟨fun a b => ⟨a.x + b.x, a.y + b.y, a.z + b.z⟩⟩

instance : Sub V3 := ⟨fun a b => ⟨a.x - b.x, a.y - b.y, a.z - b.z⟩⟩

/-- Scalar multiple of a 3-vector (TVector3 `operator*`). -/
def V3.scale (r : ℝ) (a : V3) : V3 := ⟨r * a.x, r * a.y, r * a.z⟩

/-- Dot product (TVector3 `Dot`). -/
def V3.dot (a b : V3) : ℝ := a.x * b.x + a.y * b.y + a.z * b.z

/-- Cross product (TVector3 `Cross`). -/
def V3.cross (a b : V3) : V3 :=
  ⟨a.y * b.z - a.z * b.y, a.z * b.x - a.x * b.z, a.x * b.y - a.y * b.x⟩

/-- Magnitude (TVector3 `Mag`). -/
noncomputable def V3.mag (a : V3) : ℝ := Real.sqrt (a.x ^ 2 + a.y ^ 2 + a.z ^ 2)

/-- Unit vector (TVector3 `Unit`): scales by 1/√(Mag2) when Mag2 > 0 and by
1 otherwise, exactly as ROOT does. -/
noncomputable def V3.unit (a : V3) : V3 :=
  V3.scale
    (if 0 < a.x ^ 2 + a.y ^ 2 + a.z ^ 2 then
      1 / Real.sqrt (a.x ^ 2 + a.y ^ 2 + a.z ^ 2)
    else 1) a

/-- Modelled from the spec: the external 4-vector primitive (ROOT's
TLorentzVector; spec §6).  Only the accessors the core uses are modelled. -/
structure P4 where
  px : ℝ
  py : ℝ
  pz : ℝ
  e : ℝ

/-- Three-momentum part (TLorentzVector `Vect`). -/
def P4.vect (v : P4) : V3 := ⟨v.px, v.py, v.pz⟩

/-- Transverse momentum accessor (TLorentzVector `Pt`). -/
noncomputable def P4.pt (v : P4) : ℝ := Real.sqrt (v.px ^ 2 + v.py ^ 2)

/-- Total momentum magnitude (TLorentzVector `P`). -/
noncomputable def P4.p (v : P4) : ℝ := Real.sqrt (v.px ^ 2 + v.py ^ 2 + v.pz ^ 2)

/-- Transverse energy accessor (TLorentzVector `Et`): E·Pt/P, and 0 for a
vanishing three-momentum, as in ROOT (`Et2 = P2 == 0 ? 0 : E2*Pt2/P2`). -/
noncomputable def P4.et (v : P4) : ℝ := if v.p = 0 then 0 else v.e * v.pt / v.p

namespace Const

/-- Modelled from the spec: `Const::BlueBeam()` from PHCorrelatorConstants.h,
which is not under src/; the blue beam runs along the +z collider axis. -/
def BlueBeam : V3 := ⟨0, 0, 1⟩

/-- Modelled from the spec: `Const::YellowBeam()` from
PHCorrelatorConstants.h, which is not under src/; the yellow beam runs along
the -z collider axis. -/
def YellowBeam : V3 := ⟨0, 0, -1⟩

/-- Modelled from the spec: `Const::SpinUp()` from PHCorrelatorConstants.h,
which is not under src/; transverse spin up points along +y (the source
reads the spin vector's Y component as the polarization sign). -/
def SpinUp : V3 := ⟨0, 1, 0⟩

/-- Modelled from the spec: `Const::SpinDown()` from PHCorrelatorConstants.h,
which is not under src/; transverse spin down points along -y. -/
def SpinDown : V3 := ⟨0, -1, 0⟩

/-- Modelled from the spec: `Const::SpinNull()` from PHCorrelatorConstants.h,
which is not under src/; the source comment calls this the "null vector". -/
def SpinNull : V3 := ⟨0, 0, 0⟩

end Const

namespace HistManager

/-- Modelled from the spec: the spin-integrated state ordinal
`HistManager::Int` from PHCorrelatorHistManager.h, which is not under src/.
The claims depend only on the spin-state ordinals being fixed and distinct;
the concrete values here are representatives. -/
def Int : Nat := 0

/-- Modelled from the spec: `HistManager::BU` (blue up). -/
def BU : Nat := 1

/-- Modelled from the spec: `HistManager::BD` (blue down). -/
def BD : Nat := 2

/-- Modelled from the spec: `HistManager::YU` (yellow up). -/
def YU : Nat := 3

/-- Modelled from the spec: `HistManager::YD` (yellow down). -/
def YD : Nat := 4

/-- Modelled from the spec: `HistManager::BUYU` (blue up, yellow up). -/
def BUYU : Nat := 5

/-- Modelled from the spec: `HistManager::BDYU` (blue down, yellow up). -/
def BDYU : Nat := 6

/-- Modelled from the spec: `HistManager::BUYD` (blue up, yellow down). -/
def BUYD : Nat := 7

/-- Modelled from the spec: `HistManager::BDYD` (blue down, yellow down). -/
def BDYD : Nat := 8

end HistManager

/-- Error raised by a failing `assert` in the source. -/
inductive Err
| assertFail
deriving DecidableEq

namespace Tools

/-- Embedding of `Tools::Exponentiate` (PHCorrelatorAnaTools.h:34-38):
`std::pow(Const::Base(), arg)`.  `Const::Base()` lives in the constants
header that is not under src/; modelled from the spec ("the logarithm base
is a configurable constant") as an explicit parameter shared with `Log`. -/
noncomputable def Exponentiate (base arg : ℝ) : ℝ := base ^ arg

/-- Embedding of `Tools::Log` (PHCorrelatorAnaTools.h:45-49):
`std::log10(arg) / std::log10(Const::Base())`, with the same shared `base`
parameter standing for `Const::Base()`. -/
noncomputable def Log (base arg : ℝ) : ℝ :=
  Real.logb 10 arg / Real.logb 10 base

/-- Embedding of `Tools::GetWrappedDoubledHadronAngle`
(PHCorrelatorAnaTools.h:102-128): a single conditional chain applying at
most one adjustment of ±π or ±2π. -/
noncomputable def GetWrappedDoubledHadronAngle (angle : ℝ) : ℝ :=
  let piDiv2 : ℝ := Real.pi / 2
  let pi3Div2 : ℝ := 3 * (Real.pi / 2)
  let minPiDiv2 : ℝ := -1 * (Real.pi / 2)
  let minPi3Div2 : ℝ := -3 * (Real.pi / 2)
  let doPiSub := angle > piDiv2 ∧ angle ≤ pi3Div2
  let doTwoPiSub := angle > pi3Div2
  let doPiAdd := angle < minPiDiv2 ∧ angle ≥ minPi3Div2
  let doTwoPiAdd := angle < minPi3Div2
  if doPiSub then angle - Real.pi
  else if doTwoPiSub then angle - 2 * Real.pi
  else if doPiAdd then angle + Real.pi
  else if doTwoPiAdd then angle + 2 * Real.pi
  else angle

/-- The edge-filling loop of `Tools::GetBinEdges`
(PHCorrelatorAnaTools.h:179-184): pushes the running edge once per
iteration for `num` iterations, stepping by `step`, then pushes the final
edge. -/
noncomputable def edgesLoop : Nat → ℝ → ℝ → List ℝ
| 0, edge, _ => [edge]
| n + 1, edge, step => edge :: edgesLoop n (edge + step) step

/-- Embedding of `Tools::GetBinEdges` (PHCorrelatorAnaTools.h:158-197).
The two `assert`s (zero count, out-of-order range) become `Err.assertFail`;
otherwise the edges are built in (possibly log-transformed) space and, in
log mode, mapped back through `Exponentiate`.  `base` stands for the
configurable `Const::Base()`. -/
noncomputable def GetBinEdges (base : ℝ) (num : Nat) (start stop : ℝ)
    (axis : Axis) : Except Err (List ℝ) :=
  if num = 0 then Except.error Err.assertFail
  else if start > stop then Except.error Err.assertFail
  else
    let start_use := if axis = Axis.Log then Log base start else start
    let stop_use := if axis = Axis.Log then Log base stop else stop
    let step := (stop_use - start_use) / (num : ℝ)
    let bins := edgesLoop num start_use step
    if axis = Axis.Log then Except.ok (bins.map (Exponentiate base))
    else Except.ok bins

/-- Embedding of `Tools::GetCstDist` (PHCorrelatorAnaTools.h:56-64):
`hypot(Δeta, remainder(Δphi, 2π))`.  C's `remainder(x, y)` is
x − y·round(x/y); IEEE rounds half-integer quotients to even while Lean's
`round` rounds them up — the two agree away from that measure-zero set. -/
noncomputable def GetCstDist (csts : Cst × Cst) : ℝ :=
  Real.sqrt
    (((csts.1.eta : ℝ) - (csts.2.eta : ℝ)) ^ 2 +
      (((csts.1.phi : ℝ) - (csts.2.phi : ℝ)) -
        2 * Real.pi *
          ((round (((csts.1.phi : ℝ) - (csts.2.phi : ℝ)) / (2 * Real.pi)) : ℤ) : ℝ)) ^ 2)

/-- Embedding of `Tools::GetJetLorentz` (PHCorrelatorAnaTools.h:211-228):
reconstructs the jet momentum from (pt, eta, phi) and sets the energy to the
three-momentum magnitude. -/
noncomputable def GetJetLorentz (jet : Jet) (norm : Bool) : P4 :=
  let th := 2 * Real.arctan (Real.exp (-1 * (jet.eta : ℝ)))
  let pz := (jet.pt : ℝ) / Real.tan th
  let px := (pz / Real.cos th) * Real.cos (jet.phi : ℝ)
  let py := (pz / Real.cos th) * Real.sin (jet.phi : ℝ)
  let vec : V3 := ⟨px, py, pz⟩
  let vec := if norm then V3.scale (1 / vec.mag) vec else vec
  ⟨vec.x, vec.y, vec.z, vec.mag⟩

/-- Embedding of `Tools::GetCstLorentz` (PHCorrelatorAnaTools.h:242-267):
reconstructs a constituent's momentum from (z, jt, eta, phi) and the jet pt,
with the energy set to the three-momentum magnitude. -/
noncomputable def GetCstLorentz (cst : Cst) (ptJet : ℚ) (norm : Bool) : P4 :=
  let ptCst := (cst.z : ℝ) * (ptJet : ℝ)
  let pCst := Real.sqrt (ptCst ^ 2 + (cst.jt : ℝ) ^ 2)
  let th := 2 * Real.arctan (Real.exp (-1 * (cst.eta : ℝ)))
  let px := pCst * Real.sin th * Real.cos (cst.phi : ℝ)
  let py := pCst * Real.sin th * Real.sin (cst.phi : ℝ)
  let pz := pCst * Real.cos th
  let vec : V3 := ⟨px, py, pz⟩
  let vec := if norm then V3.scale (1 / vec.mag) vec else vec
  ⟨vec.x, vec.y, vec.z, vec.mag⟩

/-- Embedding of `Tools::GetBeams` (PHCorrelatorAnaTools.h:302-306): the
pair (blue beam, yellow beam). -/
def GetBeams : V3 × V3 := (Const.BlueBeam, Const.YellowBeam)

/-- Embedding of `Tools::GetSpins` (PHCorrelatorAnaTools.h:317-368): spin
vectors for a spin pattern, blue first, yellow second; both null for any
unrecognized pattern (the switch's default branch). -/
def GetSpins (pattern : SpinPattern) : V3 × V3 :=
  match pattern with
  | .ppbuyu => (Const.SpinUp, Const.SpinUp)
  | .ppbdyu => (Const.SpinDown, Const.SpinUp)
  | .ppbuyd => (Const.SpinUp, Const.SpinDown)
  | .ppbdyd => (Const.SpinDown, Const.SpinDown)
  | .pabu => (Const.SpinUp, Const.SpinNull)
  | .pabd => (Const.SpinDown, Const.SpinNull)
  | .unrecognized => (Const.SpinNull, Const.SpinNull)

end Tools

/-- Embedding of the `Binning` value class (PHCorrelatorBins.h:36-95): the
uniform parameters plus the resolved edge list. -/
structure Binning where
  m_start : ℝ
  m_stop : ℝ
  m_num : Nat
  m_bins : List ℝ

/-- A default-constructed `Binning` (PHCorrelatorBins.h:63): the edge vector
is empty; the scalar members are value-initialized/indeterminate in C++ and
are modelled as 0 (no claim depends on them). -/
def Binning.defaultCtor : Binning := ⟨0, 0, 0, []⟩

/-- Lookup in the modelled `std::map<std::string, Binning>`:
`m_bins.count(name) >= 1` in the source corresponds to a `some` result. -/
def mapFind : List (String × Binning) → String → Option Binning
| [], _ => none
| e :: rest, k => if e.1 = k then some e.2 else mapFind rest k

/-- Update in the modelled map, as `std::map::operator[]` assignment does:
replace the value under an existing key, otherwise insert the new entry. -/
def mapStore : List (String × Binning) → String → Binning → List (String × Binning)
| [], k, v => [(k, v)]
| e :: rest, k, v => if e.1 = k then (k, v) :: rest else e :: mapStore rest k v

/-- Embedding of the `Bins` registry state (PHCorrelatorBins.h:106-183): the
name-to-Binning map, modelled as an association list. -/
structure Bins where
  m_bins : List (String × Binning)

/-- Embedding of `Bins::Get` (PHCorrelatorBins.h:150-160).  When the name is
absent, the source's guard runs `assert(m_bins.count(variable) == 0)`, whose
condition is then TRUE, so the assert passes and never fails; the following
`return m_bins[variable]` default-inserts a `Binning` through
`std::map::operator[]` and returns it.  The result pairs the returned
Binning with the registry state after the call. -/
def Bins.Get (b : Bins) (name : String) : Except Err (Binning × Bins) :=
  match mapFind b.m_bins name with
  | some bn => Except.ok (bn, b)
  | none => Except.ok (Binning.defaultCtor, ⟨mapStore b.m_bins name Binning.defaultCtor⟩)

/-- Embedding of the `Calculator` configuration state
(PHCorrelatorCalculator.h:36-51).  The `HistManager` member's header is not
under src/; modelled from the spec (§4.5 "active binning configuration
flags"), the four boolean flags the calculator reads back from it
(`GetDoPtJetBins` etc.) are carried directly. -/
structure Calculator where
  m_weight_power : ℝ
  m_weight_type : Weight
  m_ptjet_bins : List (ℚ × ℚ)
  m_cfjet_bins : List (ℚ × ℚ)
  m_chrg_bins : List (ℚ × ℚ)
  do_ptjet_bins : Bool
  do_cfjet_bins : Bool
  do_charge_bins : Bool
  do_spin_bins : Bool

/-- The default `Calculator` constructor (PHCorrelatorCalculator.h:631-636):
weight power 1.0 and weight type `Type::Pt`; the bin vectors start empty and
the manager's binning flags start off. -/
def Calculator.init : Calculator :=
  ⟨1, Weight.Pt, [], [], [], false, false, false, false⟩

/-- The observable selected by the weight-type switch of
`Calculator::GetCstWeight` (PHCorrelatorCalculator.h:60-82): total energy,
transverse energy, or transverse momentum, with transverse momentum for any
unrecognized weight type (the switch's default branch). -/
noncomputable def weightObservable (w : Weight) (v : P4) : ℝ :=
  match w with
  | .E => v.e
  | .Et => v.et
  | .Pt => v.pt
  | .Other => v.pt

/-- Embedding of `Calculator::GetCstWeight` (PHCorrelatorCalculator.h:55-92):
the numerator is taken from the constituent and the denominator from the jet
by the same weight-type switch, both are raised to the configured power, and
the quotient is returned. -/
noncomputable def Calculator.GetCstWeight (c : Calculator) (cst jet : P4) : ℝ :=
  let numer := weightObservable c.m_weight_type cst
  let denom := weightObservable c.m_weight_type jet
  (numer ^ c.m_weight_power) / (denom ^ c.m_weight_power)

/-- A half-open `[low, high)` bin range contains `v`: the source's test
`(v >= bins[i].first) && (v < bins[i].second)`. -/
def inRange (v : ℚ) (b : ℚ × ℚ) : Prop := b.1 ≤ v ∧ v < b.2

instance (v : ℚ) (b : ℚ × ℚ) : Decidable (inRange v b) :=
  inferInstanceAs (Decidable (_ ∧ _))

/-- One bin-search loop of `Calculator::GetHistIndices`
(PHCorrelatorCalculator.h:127-131, 137-141, 146-150): scans every range in
order with no break, overwriting the accumulator with the index of each
half-open `[low, high)` range containing `v`; `i` is the running counter. -/
def binLoopAux (v : ℚ) : List (ℚ × ℚ) → Nat → Nat → Nat
| [], _, acc => acc
| b :: rest, i, acc =>
  binLoopAux v rest (i + 1) (if inRange v b then i else acc)

/-- The full bin-search loop, from counter 0 and the zero-initialized
`base_index` component. -/
def binLoop (bins : List (ℚ × ℚ)) (v : ℚ) : Nat := binLoopAux v bins 0 0

/-- The `base_index.pt` component after the pt loop of
`Calculator::GetHistIndices` (PHCorrelatorCalculator.h:123-132): the loop
runs only when pt binning is enabled, else the initial 0 stands. -/
def Calculator.basePt (c : Calculator) (jet : Jet) : Nat :=
  if c.do_ptjet_bins then binLoop c.m_ptjet_bins jet.pt else 0

/-- The `base_index.cf` component after the cf loop
(PHCorrelatorCalculator.h:136-142). -/
def Calculator.baseCf (c : Calculator) (jet : Jet) : Nat :=
  if c.do_cfjet_bins then binLoop c.m_cfjet_bins jet.cf else 0

/-- The `base_index.chrg` component after the charge loop
(PHCorrelatorCalculator.h:145-151). -/
def Calculator.baseChrg (c : Calculator) (jet : Jet) : Nat :=
  if c.do_charge_bins then binLoop c.m_chrg_bins jet.charge else 0

/-- The `spin_indices` list built by `Calculator::GetHistIndices`
(PHCorrelatorCalculator.h:153-204): the spin-integrated ordinal first, then,
when spin binning is on, the states the pattern switch appends (nothing for
an unrecognized pattern: the default branch). -/
def Calculator.spinIndices (c : Calculator) (jet : Jet) : List Nat :=
  HistManager.Int ::
    (if c.do_spin_bins then
      match jet.pattern with
      | .ppbuyu => [HistManager.BU, HistManager.YU, HistManager.BUYU]
      | .ppbdyu => [HistManager.BD, HistManager.YU, HistManager.BDYU]
      | .ppbuyd => [HistManager.BU, HistManager.YD, HistManager.BUYD]
      | .ppbdyd => [HistManager.BD, HistManager.YD, HistManager.BDYD]
      | .pabu => [HistManager.BU]
      | .pabd => [HistManager.BD]
      | .unrecognized => []
    else [])

/-- The four indices pushed per realized spin state by the assembly loop of
`Calculator::GetHistIndices` (PHCorrelatorCalculator.h:206-249), in the
source's push order: fully integrated (except cf), pt-binned, charge-binned,
fully binned; the integrated pt and charge coordinates are the bin-list
sizes. -/
def Calculator.spinBlock (c : Calculator) (jet : Jet) (s : Nat) : List HistIndex :=
  [⟨c.m_ptjet_bins.length, c.baseCf jet, c.m_chrg_bins.length, s⟩,
   ⟨c.basePt jet, c.baseCf jet, c.m_chrg_bins.length, s⟩,
   ⟨c.m_ptjet_bins.length, c.baseCf jet, c.baseChrg jet, s⟩,
   ⟨c.basePt jet, c.baseCf jet, c.baseChrg jet, s⟩]

/-- Embedding of `Calculator::GetHistIndices`
(PHCorrelatorCalculator.h:119-252): the assembly loop appends one block of
four indices per entry of `spin_indices`. -/
def Calculator.GetHistIndices (c : Calculator) (jet : Jet) : List HistIndex :=
  (c.spinIndices jet).foldl (fun acc s => acc ++ c.spinBlock jet s) []

/-- Modelled from the spec: `Type::HistContent` (the spec's
ObservableBundle) comes from a types header that is not under src/.  It
collects the per-observation quantities handed to the accumulation sink;
the fields the source assigns only under spin binning keep modelled
constructor defaults (0, and `none` for the pattern) otherwise. -/
structure HistContent where
  weight : ℝ
  dist : ℝ
  phiCollB : ℝ
  phiCollY : ℝ
  phiBoerB : ℝ
  phiBoerY : ℝ
  spinB : ℝ
  spinY : ℝ
  pattern : Option SpinPattern

/-- Embedding of the observable computation of `Calculator::CalcEEC`
(PHCorrelatorCalculator.h:353-615), dihadron fragmentation-function variant
(the active code path; the Collins/Boer-Mulders blocks are commented out in
the source).  Forwarding the content to the histogram sink is a side effect
outside the model; this function returns the `HistContent` the source would
fill with.  Divisions follow Lean's total convention x/0 = 0, whereas the
unguarded C++ divisions produce ±Inf/NaN when a cross-product magnitude
vanishes (see claim C4). -/
noncomputable def Calculator.CalcEEC (c : Calculator) (jet : Jet)
    (csts : Cst × Cst) (evt_weight : ℝ) : HistContent :=
  let vecJet4 := Tools.GetJetLorentz jet false
  let vecCst1 := Tools.GetCstLorentz csts.1 jet.pt false
  let vecCst2 := Tools.GetCstLorentz csts.2 jet.pt false
  let vecBeam3 := Tools.GetBeams
  let vecSpin3 := Tools.GetSpins jet.pattern
  let PC := vecCst1.vect + vecCst2.vect
  let PC_unit := PC.unit
  let RC := V3.scale (1 / 2) (vecCst1.vect - vecCst2.vect)
  let PB := vecBeam3.1
  let PB_unit := PB.unit
  let SB := vecSpin3.1
  let PA := vecBeam3.2
  let PA_unit := PA.unit
  let SA := vecSpin3.2
  let cThetaSB :=
    (V3.scale (1 / (PB_unit.cross PC).mag) (PB_unit.cross PC)).dot
      (V3.scale (1 / (PB_unit.cross SB).mag) (PB_unit.cross SB))
  let sThetaSB :=
    (PC.cross SB).dot PB_unit *
      (1 / ((PB_unit.cross PC).mag * (PB_unit.cross SB).mag))
  let cThetaSA :=
    (V3.scale (1 / (PA_unit.cross PC).mag) (PA_unit.cross PC)).dot
      (V3.scale (1 / (PA_unit.cross SA).mag) (PA_unit.cross SA))
  let sThetaSA :=
    (PC.cross SA).dot PA_unit *
      (1 / ((PA_unit.cross PC).mag * (PA_unit.cross SA).mag))
  let cThetaRC :=
    (V3.scale (1 / (PC_unit.cross PA).mag) (PC_unit.cross PA)).dot
      (V3.scale (1 / (PC_unit.cross RC).mag) (PC_unit.cross RC))
  let sThetaRC :=
    (PA.cross RC).dot PC_unit *
      (1 / ((PC_unit.cross PA).mag * (PC_unit.cross RC).mag))
  let ThetaSB0 :=
    if sThetaSB > 0 then Real.arccos cThetaSB else -Real.arccos cThetaSB
  let ThetaSB1 := if ThetaSB0 < 0 then ThetaSB0 + 2 * Real.pi else ThetaSB0
  let ThetaSB := if ThetaSB1 ≥ 2 * Real.pi then ThetaSB1 - 2 * Real.pi else ThetaSB1
  let ThetaSA0 :=
    if sThetaSA > 0 then Real.arccos cThetaSA else -Real.arccos cThetaSA
  let ThetaSA1 := if ThetaSA0 < 0 then ThetaSA0 + 2 * Real.pi else ThetaSA0
  let ThetaSA := if ThetaSA1 ≥ 2 * Real.pi then ThetaSA1 - 2 * Real.pi else ThetaSA1
  let ThetaRC0 :=
    if sThetaRC > 0 then Real.arccos cThetaRC else -Real.arccos cThetaRC
  let ThetaRC1 := if ThetaRC0 < 0 then ThetaRC0 + 2 * Real.pi else ThetaRC0
  let ThetaRC := if ThetaRC1 ≥ 2 * Real.pi then ThetaRC1 - 2 * Real.pi else ThetaRC1
  let ThetaSB_RC0 := ThetaSB - ThetaRC
  let ThetaSB_RC1 :=
    if ThetaSB_RC0 < 0 then ThetaSB_RC0 + 2 * Real.pi else ThetaSB_RC0
  let ThetaSB_RC :=
    if ThetaSB_RC1 ≥ 2 * Real.pi then ThetaSB_RC1 - 2 * Real.pi else ThetaSB_RC1
  let ThetaSA_RC0 := ThetaSA - ThetaRC
  let ThetaSA_RC1 :=
    if ThetaSA_RC0 < 0 then ThetaSA_RC0 + 2 * Real.pi else ThetaSA_RC0
  let ThetaSA_RC :=
    if ThetaSA_RC1 ≥ 2 * Real.pi then ThetaSA_RC1 - 2 * Real.pi else ThetaSA_RC1
  let cst_weight1 := c.GetCstWeight vecCst1 vecJet4
  let cst_weight2 := c.GetCstWeight vecCst2 vecJet4
  let dist := Tools.GetCstDist csts
  let weight := cst_weight1 * cst_weight2 * evt_weight
  { weight := weight
    dist := dist
    phiCollB := if c.do_spin_bins then ThetaSB_RC else 0
    phiCollY := if c.do_spin_bins then ThetaSA_RC else 0
    phiBoerB := 0
    phiBoerY := 0
    spinB := if c.do_spin_bins then vecSpin3.1.y else 0
    spinY := if c.do_spin_bins then vecSpin3.2.y else 0
    pattern := if c.do_spin_bins then some jet.pattern else none }

/-- The ordinal of the LAST `[low, high)` range containing `v`, if any: the
reference description of what the source's break-less overwrite scan ends up
selecting. -/
def lastMatch? (bins : List (ℚ × ℚ)) (v : ℚ) : Option Nat :=
  match bins with
  | [] => none
  | b :: rest =>
    match lastMatch? rest v with
    | some k => some (k + 1)
    | none => if inRange v b then some 0 else none

lemma binLoopAux_eq_lastMatch (v : ℚ) :
    ∀ (l : List (ℚ × ℚ)) (i a : Nat),
      binLoopAux v l i a = ((lastMatch? l v).map (i + ·)).getD a := by
  intro l
  induction l with
  | nil => intro i a; rfl
  | cons b rest ih =>
    intro i a
    rw [binLoopAux, ih]
    cases h : lastMatch? rest v with
    | some k =>
      simp only [lastMatch?, h, Option.map_some', Option.getD_some]
      omega
    | none =>
      by_cases hm : inRange v b <;>
        simp [lastMatch?, h, hm]

lemma binLoop_eq_lastMatch (bins : List (ℚ × ℚ)) (v : ℚ) :
    binLoop bins v = (lastMatch? bins v).getD 0 := by
  rw [binLoop, binLoopAux_eq_lastMatch]
  cases lastMatch? bins v <;> simp

lemma lastMatch?_lt_length {v : ℚ} :
    ∀ {bins : List (ℚ × ℚ)} {k : Nat},
      lastMatch? bins v = some k → k < bins.length := by
  intro bins
  induction bins with
  | nil => intro k h; simp [lastMatch?] at h
  | cons b rest ih =>
    intro k h
    rw [lastMatch?] at h
    cases hr : lastMatch? rest v with
    | some m =>
      rw [hr] at h
      simp only [Option.some.injEq] at h
      have := ih hr
      simp [← h]
      omega
    | none =>
      rw [hr] at h
      by_cases hm : inRange v b <;> simp [hm] at h
      simp [← h]

lemma lastMatch?_mem {v : ℚ} :
    ∀ {bins : List (ℚ × ℚ)} {k : Nat},
      lastMatch? bins v = some k → ∃ b, bins[k]? = some b ∧ inRange v b := by
  intro bins
  induction bins with
  | nil => intro k h; simp [lastMatch?] at h
  | cons b rest ih =>
    intro k h
    rw [lastMatch?] at h
    cases hr : lastMatch? rest v with
    | some m =>
      rw [hr] at h
      simp only [Option.some.injEq] at h
      obtain ⟨b', hb', hin⟩ := ih hr
      exact ⟨b', by simp [← h, hb'], hin⟩
    | none =>
      rw [hr] at h
      by_cases hm : inRange v b <;> simp [hm] at h
      exact ⟨b, by simp [← h], hm⟩

lemma lastMatch?_none {v : ℚ} :
    ∀ {bins : List (ℚ × ℚ)},
      lastMatch? bins v = none ↔ ∀ b ∈ bins, ¬ inRange v b := by
  intro bins
  induction bins with
  | nil => simp [lastMatch?]
  | cons b rest ih =>
    constructor
    · intro h
      rw [lastMatch?] at h
      cases hr : lastMatch? rest v with
      | some m => rw [hr] at h; exact absurd h (by simp)
      | none =>
        rw [hr] at h
        by_cases hm : inRange v b
        · rw [if_pos hm] at h; exact absurd h (by simp)
        · intro x hx
          rcases List.mem_cons.mp hx with rfl | hx'
          · exact hm
          · exact ih.mp hr x hx'
    · intro h
      rw [lastMatch?]
      have hrest : lastMatch? rest v = none :=
        ih.mpr (fun x hx => h x (List.mem_cons_of_mem _ hx))
      rw [hrest]
      exact if_neg (h b (List.mem_cons_self _ _))

lemma lastMatch?_last {v : ℚ} :
    ∀ {bins : List (ℚ × ℚ)} {k : Nat},
      lastMatch? bins v = some k →
        ∀ j b, k < j → bins[j]? = some b → ¬ inRange v b := by
  intro bins
  induction bins with
  | nil => intro k h; simp [lastMatch?] at h
  | cons b rest ih =>
    intro k h j b' hkj hj
    rw [lastMatch?] at h
    cases hr : lastMatch? rest v with
    | some m =>
      rw [hr] at h
      simp only [Option.some.injEq] at h
      cases j with
      | zero => omega
      | succ i =>
        simp only [List.getElem?_cons_succ] at hj
        exact ih hr i b' (by omega) hj
    | none =>
      rw [hr] at h
      by_cases hm : inRange v b
      · cases j with
        | zero => rw [if_pos hm] at h; simp at h; omega
        | succ i =>
          simp only [List.getElem?_cons_succ] at hj
          exact lastMatch?_none.mp hr b' (List.getElem?_mem hj)
      · rw [if_neg hm] at h; exact absurd h (by simp)

lemma foldl_append_eq_flatMap {α β : Type} (f : α → List β) :
    ∀ (l : List α) (init : List β),
      l.foldl (fun acc s => acc ++ f s) init = init ++ l.flatMap f := by
  intro l
  induction l with
  | nil => intro init; simp
  | cons a rest ih =>
    intro init
    rw [List.foldl_cons, ih, List.flatMap_cons, List.append_assoc]

lemma flatMap_blocks_length {α β : Type} (f : α → List β)
    (h : ∀ s, (f s).length = 4) :
    ∀ l : List α, (l.flatMap f).length = 4 * l.length := by
  intro l
  induction l with
  | nil => simp
  | cons a rest ih =>
    rw [List.flatMap_cons, List.length_append, ih, h, List.length_cons]
    ring

lemma flatMap_blocks_extract {α β : Type} (f : α → List β)
    (h : ∀ s, (f s).length = 4) :
    ∀ (l : List α) (k : Nat) (hk : k < l.length),
      ((l.flatMap f).drop (4 * k)).take 4 = f (l.get ⟨k, hk⟩) := by
  intro l
  induction l with
  | nil => intro k hk; exact absurd hk (by simp)
  | cons a rest ih =>
    intro k hk
    cases k with
    | zero =>
      rw [List.flatMap_cons]
      simp only [Nat.mul_zero, List.drop_zero, List.get]
      exact List.take_left' (h a)
    | succ m =>
      rw [List.flatMap_cons]
      have h4 : 4 * (m + 1) = (f a).length + 4 * m := by rw [h a]; ring
      rw [h4, ← List.drop_drop, List.drop_left]
      exact ih m (by simpa using hk)

lemma edgesLoop_eq_map :
    ∀ (num : Nat) (start step : ℝ),
      Tools.edgesLoop num start step =
        (List.range (num + 1)).map (fun i : ℕ => start + (i : ℝ) * step) := by
  intro num
  induction num with
  | zero =>
    intro start step
    simp [Tools.edgesLoop, List.range_succ]
  | succ n ih =>
    intro start step
    rw [Tools.edgesLoop, ih]
    conv_rhs => rw [List.range_succ_eq_map, List.map_cons, List.map_map]
    congr 1
    · norm_num
    · apply List.map_congr_left
      intro i _
      simp only [Function.comp_apply]
      push_cast
      ring

lemma edgesLoop_length (num : Nat) (start step : ℝ) :
    (Tools.edgesLoop num start step).length = num + 1 := by
  rw [edgesLoop_eq_map]
  simp

lemma edgesLoop_head (num : Nat) (start step : ℝ) :
    (Tools.edgesLoop num start step).head? = some start := by
  cases num <;> rfl

lemma edgesLoop_getLast (num : Nat) (start step : ℝ) :
    (Tools.edgesLoop num start step).getLast? = some (start + (num : ℝ) * step) := by
  rw [edgesLoop_eq_map, List.getLast?_eq_getElem?]
  simp only [List.length_map, List.length_range, Nat.add_sub_cancel,
    List.getElem?_map, List.getElem?_range (Nat.lt_succ_self num), Option.map_some']

lemma edgesLoop_chain (num : Nat) (start step : ℝ) (h : 0 < step) :
    List.Chain' (fun a b : ℝ => a < b) (Tools.edgesLoop num start step) := by
  rw [edgesLoop_eq_map, List.chain'_map, List.chain'_range_succ]
  intro m _
  have hm : (0 : ℝ) ≤ (m : ℝ) := Nat.cast_nonneg m
  push_cast
  nlinarith

lemma getBinEdges_norm (base : ℝ) (num : Nat) (start stop : ℝ)
    (hn : num ≠ 0) (hs : start ≤ stop) :
    Tools.GetBinEdges base num start stop Axis.Norm =
      Except.ok (Tools.edgesLoop num start ((stop - start) / (num : ℝ))) := by
  rw [Tools.GetBinEdges, if_neg hn, if_neg (not_lt.mpr hs)]
  simp

lemma getBinEdges_log (base : ℝ) (num : Nat) (start stop : ℝ)
    (hn : num ≠ 0) (hs : start ≤ stop) :
    Tools.GetBinEdges base num start stop Axis.Log =
      Except.ok ((Tools.edgesLoop num (Tools.Log base start)
        ((Tools.Log base stop - Tools.Log base start) / (num : ℝ))).map
          (Tools.Exponentiate base)) := by
  rw [Tools.GetBinEdges, if_neg hn, if_neg (not_lt.mpr hs)]
  simp

lemma log_eq_logb (base x : ℝ) : Tools.Log base x = Real.logb base x := by
  have h10 : Real.log 10 ≠ 0 := (Real.log_pos (by norm_num)).ne'
  rw [Tools.Log, Real.logb, Real.logb, Real.logb]
  by_cases hb : Real.log base = 0
  · rw [hb, zero_div, div_zero, div_zero]
  · field_simp

/-- C2 (code bug): the claim — and the source's own comment "throw error if
binning doesn't exist" — say `Bins::Get` of an absent name fails and leaves
the registry unchanged.  The source instead guards with
`assert(m_bins.count(variable) == 0)`, whose condition is TRUE exactly when
the name is absent, so the assert passes; `return m_bins[variable]` then
default-inserts through `std::map::operator[]`.  Evaluated on an empty
registry, `Get "energy"` succeeds, returns a default-constructed `Binning`,
and grows the registry by one entry. -/
theorem c2_get_absent_inserts_default :
    (Bins.mk []).Get "energy" =
      Except.ok (Binning.defaultCtor, Bins.mk [("energy", Binning.defaultCtor)]) := rfl

/-- C6 (amended): for every count > 0 and start < stop (the original claim's
start ≤ stop fails at start = stop, where the edges are not strictly
increasing — see the counterexample), linear-mode `GetBinEdges` returns
exactly count+1 strictly increasing edges, the i-th edge being
start + i·(stop−start)/count, with first edge start and last edge stop. -/
theorem c6_linear_edges (base : ℝ) (num : Nat) (start stop : ℝ)
    (hn : num ≠ 0) (hs : start < stop) :
    Tools.GetBinEdges base num start stop Axis.Norm =
      Except.ok (Tools.edgesLoop num start ((stop - start) / (num : ℝ)))
    ∧ Tools.edgesLoop num start ((stop - start) / (num : ℝ)) =
        (List.range (num + 1)).map
          (fun i : ℕ => start + (i : ℝ) * ((stop - start) / (num : ℝ)))
    ∧ (Tools.edgesLoop num start ((stop - start) / (num : ℝ))).length = num + 1
    ∧ (Tools.edgesLoop num start ((stop - start) / (num : ℝ))).head? = some start
    ∧ (Tools.edgesLoop num start ((stop - start) / (num : ℝ))).getLast? = some stop
    ∧ List.Chain' (fun a b : ℝ => a < b)
        (Tools.edgesLoop num start ((stop - start) / (num : ℝ))) := by
  have hnum : ((num : ℝ)) ≠ 0 := Nat.cast_ne_zero.mpr hn
  have hnum' : (0 : ℝ) < (num : ℝ) := by
    exact_mod_cast Nat.pos_of_ne_zero hn
  have hstep : 0 < (stop - start) / (num : ℝ) := div_pos (by linarith) hnum'
  refine ⟨getBinEdges_norm base num start stop hn hs.le, edgesLoop_eq_map num _ _,
    edgesLoop_length num _ _, edgesLoop_head num _ _, ?_,
    edgesLoop_chain num _ _ hstep⟩
  rw [edgesLoop_getLast]
  congr 1
  field_simp

/-- C6 counterexample: at count = 1, start = stop = 0 (allowed by the
claim's "start ≤ stop"), linear-mode `GetBinEdges` returns the edge list
[0, 0], which is not strictly increasing. -/
theorem c6_counterexample :
    ((0 : ℝ) ≤ 0)
    ∧ Tools.GetBinEdges 10 1 0 0 Axis.Norm = Except.ok [0, 0]
    ∧ ¬ List.Chain' (fun a b : ℝ => a < b) ([0, 0] : List ℝ) := by
  refine ⟨le_rfl, ?_, by simp⟩
  rw [getBinEdges_norm 10 1 0 0 (by norm_num) le_rfl]
  norm_num [Tools.edgesLoop]

/-- C6 witness: the amended theorem applied at base 10, count 2, range
[0, 1]. -/
theorem c6_witness :
    Tools.GetBinEdges 10 2 0 1 Axis.Norm =
      Except.ok (Tools.edgesLoop 2 0 ((1 - 0) / ((2 : ℕ) : ℝ)))
    ∧ (Tools.edgesLoop 2 0 ((1 - 0) / ((2 : ℕ) : ℝ))).getLast? = some 1
    ∧ (Tools.edgesLoop 2 0 ((1 - 0) / ((2 : ℕ) : ℝ))).length = 2 + 1 := by
  have h := c6_linear_edges 10 2 0 1 (by norm_num) (by norm_num)
  exact ⟨h.1, h.2.2.2.2.1, h.2.2.1⟩

/-- C7 (amended): `GetBinEdges` fails exactly when count = 0 or start >
stop, in every spacing mode; in logarithmic mode there is NO domain check,
so with start ≤ 0 (and count > 0, start ≤ stop) it does not fail and returns
an edge list — see the counterexample. -/
theorem c7_error_conditions (base : ℝ) (num : Nat) (start stop : ℝ)
    (axis : Axis) :
    (num = 0 ∨ stop < start →
      Tools.GetBinEdges base num start stop axis = Except.error Err.assertFail)
    ∧ (num ≠ 0 → start ≤ stop →
      Tools.GetBinEdges base num start stop axis ≠ Except.error Err.assertFail) := by
  constructor
  · rintro (h | h)
    · rw [Tools.GetBinEdges, if_pos h]
    · by_cases hn : num = 0
      · rw [Tools.GetBinEdges, if_pos hn]
      · rw [Tools.GetBinEdges, if_neg hn, if_pos h]
  · intro hn hs
    rw [Tools.GetBinEdges, if_neg hn, if_neg (not_lt.mpr hs)]
    cases axis <;> simp

/-- C7 counterexample: in logarithmic mode with start = 0 ≤ 0 the source
raises no error: `GetBinEdges(1, 0, 1, Log)` returns an edge list instead of
failing.  (In this exact-real model the list is [1, 1] because Lean's
`Real.log 0 = 0`; the C++ computes through log10(0) = −Inf and likewise
returns a vector of edges rather than failing.) -/
theorem c7_counterexample :
    Tools.GetBinEdges 10 1 0 1 Axis.Log = Except.ok [1, 1] := by
  rw [getBinEdges_log 10 1 0 1 (by norm_num) (by norm_num)]
  have h0 : Tools.Log 10 0 = 0 := by simp [Tools.Log]
  have h1 : Tools.Log 10 1 = 0 := by simp [Tools.Log]
  rw [h0, h1]
  norm_num [Tools.edgesLoop, Tools.Exponentiate]

/-- C7 witness: the amended theorem applied at a failing input (count = 0)
and at a log-mode input with start = 0 that succeeds. -/
theorem c7_witness :
    Tools.GetBinEdges 10 0 0 1 Axis.Norm = Except.error Err.assertFail
    ∧ Tools.GetBinEdges 10 1 0 1 Axis.Log ≠ Except.error Err.assertFail :=
  ⟨(c7_error_conditions 10 0 0 1 Axis.Norm).1 (Or.inl rfl),
   (c7_error_conditions 10 1 0 1 Axis.Log).2 (by norm_num) (by norm_num)⟩

/-- C9: `Exponentiate` and `Log` use the same configurable base (modelled as
the shared `base` parameter standing for `Const::Base()`), so they
round-trip on every positive argument; consequently the logarithmic-mode
edges of `GetBinEdges` are exactly the image under `Exponentiate` of the
linearly spaced edges between `Log start` and `Log stop`. -/
theorem c9_log_exp_consistency (base x : ℝ) (num : Nat) (start stop : ℝ)
    (hb : 0 < base) (hb1 : base ≠ 1) (hx : 0 < x) (hn : num ≠ 0)
    (hs : start ≤ stop) :
    Tools.Exponentiate base (Tools.Log base x) = x
    ∧ Tools.GetBinEdges base num start stop Axis.Log =
        Except.ok ((Tools.edgesLoop num (Tools.Log base start)
          ((Tools.Log base stop - Tools.Log base start) / (num : ℝ))).map
            (Tools.Exponentiate base)) := by
  constructor
  · rw [Tools.Exponentiate, log_eq_logb]
    exact Real.rpow_logb hb hb1 hx
  · exact getBinEdges_log base num start stop hn hs

lemma getHistIndices_eq_flatMap (c : Calculator) (jet : Jet) :
    c.GetHistIndices jet = (c.spinIndices jet).flatMap (c.spinBlock jet) := by
  rw [Calculator.GetHistIndices, foldl_append_eq_flatMap]
  simp

/-- C1: `GetHistIndices` always emits contiguous blocks of 4 indices, one
block per realized spin state, each block in the fixed order
[fully-integrated, pt-binned, charge-binned, fully-binned] (that is the
`spinBlock` list); 4 indices in total when spin binning is off or the
pattern is unrecognized, 8 for the recognized single-beam (pAu) patterns,
16 for the recognized dual-beam (pp) patterns; and the blocks are ordered
[integrated, blue, yellow, both]. -/
theorem c1_hist_index_fanout (c : Calculator) (jet : Jet) :
    c.GetHistIndices jet = (c.spinIndices jet).flatMap (c.spinBlock jet)
    ∧ (c.GetHistIndices jet).length = 4 * (c.spinIndices jet).length
    ∧ (∀ k (hk : k < (c.spinIndices jet).length),
        ((c.GetHistIndices jet).drop (4 * k)).take 4 =
          c.spinBlock jet ((c.spinIndices jet).get ⟨k, hk⟩))
    ∧ (c.do_spin_bins = false → (c.GetHistIndices jet).length = 4)
    ∧ (jet.pattern = SpinPattern.unrecognized → (c.GetHistIndices jet).length = 4)
    ∧ (c.do_spin_bins = true →
        jet.pattern = SpinPattern.pabu ∨ jet.pattern = SpinPattern.pabd →
        (c.GetHistIndices jet).length = 8)
    ∧ (c.do_spin_bins = true →
        jet.pattern = SpinPattern.ppbuyu ∨ jet.pattern = SpinPattern.ppbdyu ∨
          jet.pattern = SpinPattern.ppbuyd ∨ jet.pattern = SpinPattern.ppbdyd →
        (c.GetHistIndices jet).length = 16)
    ∧ (c.do_spin_bins = true → jet.pattern = SpinPattern.ppbuyu →
        c.spinIndices jet =
          [HistManager.Int, HistManager.BU, HistManager.YU, HistManager.BUYU])
    ∧ (c.do_spin_bins = true → jet.pattern = SpinPattern.ppbdyu →
        c.spinIndices jet =
          [HistManager.Int, HistManager.BD, HistManager.YU, HistManager.BDYU])
    ∧ (c.do_spin_bins = true → jet.pattern = SpinPattern.ppbuyd →
        c.spinIndices jet =
          [HistManager.Int, HistManager.BU, HistManager.YD, HistManager.BUYD])
    ∧ (c.do_spin_bins = true → jet.pattern = SpinPattern.ppbdyd →
        c.spinIndices jet =
          [HistManager.Int, HistManager.BD, HistManager.YD, HistManager.BDYD])
    ∧ (c.do_spin_bins = true → jet.pattern = SpinPattern.pabu →
        c.spinIndices jet = [HistManager.Int, HistManager.BU])
    ∧ (c.do_spin_bins = true → jet.pattern = SpinPattern.pabd →
        c.spinIndices jet = [HistManager.Int, HistManager.BD]) := by
  have hflat := getHistIndices_eq_flatMap c jet
  have hlen4 : ∀ s, (c.spinBlock jet s).length = 4 := fun s => rfl
  have hlen : (c.GetHistIndices jet).length = 4 * (c.spinIndices jet).length := by
    rw [hflat]
    exact flatMap_blocks_length _ hlen4 _
  refine ⟨hflat, hlen, ?_, ?_, ?_, ?_, ?_, ?_, ?_, ?_, ?_, ?_, ?_⟩
  · intro k hk
    rw [hflat]
    exact flatMap_blocks_extract _ hlen4 _ k hk
  · intro h
    rw [hlen]
    simp [Calculator.spinIndices, h]
  · intro h
    rw [hlen]
    cases hs : c.do_spin_bins <;> simp [Calculator.spinIndices, h, hs]
  · rintro h (hp | hp) <;> rw [hlen] <;> simp [Calculator.spinIndices, h, hp]
  · rintro h (hp | hp | hp | hp) <;> rw [hlen] <;>
      simp [Calculator.spinIndices, h, hp]
  · intro h hp
    simp [Calculator.spinIndices, h, hp]
  · intro h hp
    simp [Calculator.spinIndices, h, hp]
  · intro h hp
    simp [Calculator.spinIndices, h, hp]
  · intro h hp
    simp [Calculator.spinIndices, h, hp]
  · intro h hp
    simp [Calculator.spinIndices, h, hp]
  · intro h hp
    simp [Calculator.spinIndices, h, hp]

/-- A concrete spin-binning configuration used by the claim witnesses. -/
def cfgW : Calculator :=
  { m_weight_power := 1
    m_weight_type := Weight.Pt
    m_ptjet_bins := [(0, 2), (1, 3)]
    m_cfjet_bins := [(0, 1)]
    m_chrg_bins := [(0, 1)]
    do_ptjet_bins := true
    do_cfjet_bins := true
    do_charge_bins := true
    do_spin_bins := true }

/-- A concrete jet used by the claim witnesses: pt 1 lies in both pt
ranges, cf 0 lies in the cf range, charge 5 lies in no charge range. -/
def jetW : Jet :=
  { pt := 3 / 2
    cf := 1 / 2
    charge := 5
    eta := 0
    phi := 0
    pattern := SpinPattern.ppbuyu }

/-- C1 witness: at the concrete spin-binning configuration and a recognized
dual-beam pattern, the theorem yields 16 indices and the documented spin
block order. -/
theorem c1_witness :
    (cfgW.GetHistIndices jetW).length = 16
    ∧ cfgW.spinIndices jetW =
        [HistManager.Int, HistManager.BU, HistManager.YU, HistManager.BUYU] := by
  have h := c1_hist_index_fanout cfgW jetW
  exact ⟨h.2.2.2.2.2.2.1 rfl (Or.inl rfl), h.2.2.2.2.2.2.2.1 rfl rfl⟩

/-- C3 counterexample: with pt ranges [0,2) and [1,3) both containing the
jet pt 1, the emitted pt ordinal is 1 — the LAST match, not the first
(the claim predicts 0); and with charge 5 in no configured charge range,
the charge-binned slot carries ordinal 0, not the integrated sentinel 1 the
claim predicts. -/
theorem c3_counterexample :
    (cfgW.GetHistIndices jetW)[1]? = some ⟨1, 0, 1, HistManager.Int⟩
    ∧ (cfgW.GetHistIndices jetW)[1]? ≠ some ⟨0, 0, 1, HistManager.Int⟩
    ∧ (cfgW.GetHistIndices jetW)[2]? = some ⟨2, 0, 0, HistManager.Int⟩
    ∧ (cfgW.GetHistIndices jetW)[2]? ≠ some ⟨2, 0, 1, HistManager.Int⟩ := by
  obtain ⟨t, ht⟩ : ∃ t, cfgW.spinIndices jetW = HistManager.Int :: t := ⟨_, rfl⟩
  have e1 : (cfgW.GetHistIndices jetW)[1]? =
      some ⟨cfgW.basePt jetW, cfgW.baseCf jetW, cfgW.m_chrg_bins.length,
        HistManager.Int⟩ := by
    rw [getHistIndices_eq_flatMap, ht, List.flatMap_cons,
      List.getElem?_append_left (by simp [Calculator.spinBlock])]
    simp [Calculator.spinBlock]
  have e2 : (cfgW.GetHistIndices jetW)[2]? =
      some ⟨cfgW.m_ptjet_bins.length, cfgW.baseCf jetW, cfgW.baseChrg jetW,
        HistManager.Int⟩ := by
    rw [getHistIndices_eq_flatMap, ht, List.flatMap_cons,
      List.getElem?_append_left (by simp [Calculator.spinBlock])]
    simp [Calculator.spinBlock]
  have hpt : cfgW.basePt jetW = 1 := by
    norm_num [Calculator.basePt, cfgW, jetW, binLoop, binLoopAux, inRange]
  have hcf : cfgW.baseCf jetW = 0 := by
    norm_num [Calculator.baseCf, cfgW, jetW, binLoop, binLoopAux, inRange]
  have hch : cfgW.baseChrg jetW = 0 := by
    norm_num [Calculator.baseChrg, cfgW, jetW, binLoop, binLoopAux, inRange]
  have hclen : cfgW.m_chrg_bins.length = 1 := rfl
  have hplen : cfgW.m_ptjet_bins.length = 2 := rfl
  rw [e1, e2, hpt, hcf, hch, hclen, hplen]
  refine ⟨rfl, by simp, rfl, by simp⟩

/-- C3 (corrected): the break-less scans of `GetHistIndices` select the
LAST matching ordinal on each enabled axis — the claim's first-match rule
fails, see the counterexample — and when a value lies in no configured
range the axis component keeps its initialization 0, which on the pt and
charge axes is bin ordinal 0, NOT the integrated sentinel (= bin-list
size). -/
theorem c3_last_match_selection (c : Calculator) (jet : Jet) :
    (c.do_ptjet_bins = true →
      c.basePt jet = (lastMatch? c.m_ptjet_bins jet.pt).getD 0)
    ∧ (c.do_cfjet_bins = true →
      c.baseCf jet = (lastMatch? c.m_cfjet_bins jet.cf).getD 0)
    ∧ (c.do_charge_bins = true →
      c.baseChrg jet = (lastMatch? c.m_chrg_bins jet.charge).getD 0)
    ∧ (∀ k, lastMatch? c.m_ptjet_bins jet.pt = some k →
        (∃ b, c.m_ptjet_bins[k]? = some b ∧ inRange jet.pt b)
        ∧ ∀ j b, k < j → c.m_ptjet_bins[j]? = some b → ¬ inRange jet.pt b)
    ∧ (lastMatch? c.m_ptjet_bins jet.pt = none → c.basePt jet = 0)
    ∧ (lastMatch? c.m_chrg_bins jet.charge = none → c.baseChrg jet = 0)
    ∧ ((c.GetHistIndices jet)[1]? =
        some ⟨c.basePt jet, c.baseCf jet, c.m_chrg_bins.length, HistManager.Int⟩)
    ∧ ((c.GetHistIndices jet)[2]? =
        some ⟨c.m_ptjet_bins.length, c.baseCf jet, c.baseChrg jet,
          HistManager.Int⟩) := by
  obtain ⟨t, ht⟩ : ∃ t, c.spinIndices jet = HistManager.Int :: t := ⟨_, rfl⟩
  refine ⟨?_, ?_, ?_, ?_, ?_, ?_, ?_, ?_⟩
  · intro h
    rw [Calculator.basePt, if_pos h, binLoop_eq_lastMatch]
  · intro h
    rw [Calculator.baseCf, if_pos h, binLoop_eq_lastMatch]
  · intro h
    rw [Calculator.baseChrg, if_pos h, binLoop_eq_lastMatch]
  · intro k hk
    exact ⟨lastMatch?_mem hk, lastMatch?_last hk⟩
  · intro h
    cases hd : c.do_ptjet_bins with
    | false => simp [Calculator.basePt, hd]
    | true => simp [Calculator.basePt, hd, binLoop_eq_lastMatch, h]
  · intro h
    cases hd : c.do_charge_bins with
    | false => simp [Calculator.baseChrg, hd]
    | true => simp [Calculator.baseChrg, hd, binLoop_eq_lastMatch, h]
  · rw [getHistIndices_eq_flatMap, ht, List.flatMap_cons,
      List.getElem?_append_left (by simp [Calculator.spinBlock])]
    simp [Calculator.spinBlock]
  · rw [getHistIndices_eq_flatMap, ht, List.flatMap_cons,
      List.getElem?_append_left (by simp [Calculator.spinBlock])]
    simp [Calculator.spinBlock]

/-- C3 witness: the amended theorem applied at the concrete configuration:
pt 1 matches ranges 0 and 1 and ordinal 1 (the last) is selected; charge 5
matches nothing and the emitted charge component is 0. -/
theorem c3_witness :
    cfgW.basePt jetW = (lastMatch? cfgW.m_ptjet_bins jetW.pt).getD 0
    ∧ cfgW.baseChrg jetW = 0
    ∧ (cfgW.GetHistIndices jetW)[1]? =
        some ⟨cfgW.basePt jetW, cfgW.baseCf jetW, cfgW.m_chrg_bins.length,
          HistManager.Int⟩ := by
  have h := c3_last_match_selection cfgW jetW
  exact ⟨h.1 rfl,
    h.2.2.2.2.2.1 (by norm_num [lastMatch?, inRange, cfgW, jetW]),
    h.2.2.2.2.2.2.1⟩

/-- A concrete constituent used by the claim witnesses. -/
def cstW : Cst :=
  { z := 1
    jt := 0
    eta := 0
    phi := 0 }

/-- C8: the pair weight computed by `CalcEEC` equals the product of the two
per-constituent weights — `GetCstWeight` applied to the reconstructed
constituent and jet four-vectors — and the event weight; each
per-constituent weight equals (observable/jet-observable)^power for the
configured observable (total energy, transverse energy, transverse
momentum, or transverse momentum for any unrecognized weight type) whenever
the constituent observable is nonnegative and the jet observable positive;
and the constructor defaults are weight type Pt with power 1. -/
theorem c8_pair_weight (c : Calculator) (jet : Jet) (csts : Cst × Cst)
    (evt_weight : ℝ) (v j : P4)
    (hn : 0 ≤ weightObservable c.m_weight_type v)
    (hd : 0 < weightObservable c.m_weight_type j) :
    (c.CalcEEC jet csts evt_weight).weight =
      c.GetCstWeight (Tools.GetCstLorentz csts.1 jet.pt false)
          (Tools.GetJetLorentz jet false)
        * c.GetCstWeight (Tools.GetCstLorentz csts.2 jet.pt false)
          (Tools.GetJetLorentz jet false)
        * evt_weight
    ∧ c.GetCstWeight v j =
        (weightObservable c.m_weight_type v /
          weightObservable c.m_weight_type j) ^ c.m_weight_power
    ∧ Calculator.init.m_weight_type = Weight.Pt
    ∧ Calculator.init.m_weight_power = 1 := by
  refine ⟨rfl, ?_, rfl, rfl⟩
  simp only [Calculator.GetCstWeight]
  rw [Real.div_rpow hn hd.le]

/-- C8 witness: the theorem applied at the default calculator (weight type
Pt, power 1), a concrete jet and constituent pair, and concrete
four-vectors with transverse momentum 0 (constituent) and 1 (jet). -/
theorem c8_witness :
    (Calculator.init.CalcEEC jetW (cstW, cstW) 1).weight =
      Calculator.init.GetCstWeight (Tools.GetCstLorentz (cstW, cstW).1 jetW.pt false)
          (Tools.GetJetLorentz jetW false)
        * Calculator.init.GetCstWeight (Tools.GetCstLorentz (cstW, cstW).2 jetW.pt false)
          (Tools.GetJetLorentz jetW false)
        * 1
    ∧ Calculator.init.GetCstWeight ⟨0, 0, 0, 1⟩ ⟨1, 0, 0, 1⟩ =
        (weightObservable Calculator.init.m_weight_type ⟨0, 0, 0, 1⟩ /
          weightObservable Calculator.init.m_weight_type ⟨1, 0, 0, 1⟩)
          ^ Calculator.init.m_weight_power := by
  have hn : (0 : ℝ) ≤ weightObservable Calculator.init.m_weight_type ⟨0, 0, 0, 1⟩ := by
    simp only [Calculator.init, weightObservable, P4.pt]
    positivity
  have hd : (0 : ℝ) < weightObservable Calculator.init.m_weight_type ⟨1, 0, 0, 1⟩ := by
    simp only [Calculator.init, weightObservable, P4.pt]
    norm_num
  have h := c8_pair_weight Calculator.init jetW (cstW, cstW) 1
    ⟨0, 0, 0, 1⟩ ⟨1, 0, 0, 1⟩ hn hd
  exact ⟨h.1, h.2.1⟩

/-- C10: in every emitted `HistIndex` the integrated sentinel on the pt
(resp. charge) axis equals the configured pt (resp. charge) bin-list size,
every emitted pt/charge coordinate is either that sentinel or the scanned
base component, a base component resolved by a matching range is strictly
below the sentinel (so the sentinel never collides with a resolved
ordinal), and the charge-fraction coordinate is always the base cf
component: 0 when cf binning is disabled or no cf range matches, and
strictly below the cf bin count otherwise. -/
theorem c10_sentinel_invariants (c : Calculator) (jet : Jet) :
    (∀ idx ∈ c.GetHistIndices jet,
        (idx.pt = c.m_ptjet_bins.length ∨ idx.pt = c.basePt jet)
        ∧ (idx.chrg = c.m_chrg_bins.length ∨ idx.chrg = c.baseChrg jet)
        ∧ idx.cf = c.baseCf jet)
    ∧ ((c.GetHistIndices jet)[0]? =
        some ⟨c.m_ptjet_bins.length, c.baseCf jet, c.m_chrg_bins.length,
          HistManager.Int⟩)
    ∧ (c.do_ptjet_bins = true →
        ∀ k, lastMatch? c.m_ptjet_bins jet.pt = some k →
          c.basePt jet = k ∧ c.basePt jet < c.m_ptjet_bins.length)
    ∧ (c.do_charge_bins = true →
        ∀ k, lastMatch? c.m_chrg_bins jet.charge = some k →
          c.baseChrg jet = k ∧ c.baseChrg jet < c.m_chrg_bins.length)
    ∧ (c.do_cfjet_bins = false → c.baseCf jet = 0)
    ∧ (lastMatch? c.m_cfjet_bins jet.cf = none → c.baseCf jet = 0)
    ∧ (c.baseCf jet = 0 ∨ c.baseCf jet < c.m_cfjet_bins.length)
    ∧ (c.basePt jet = 0 ∨ c.basePt jet < c.m_ptjet_bins.length)
    ∧ (c.baseChrg jet = 0 ∨ c.baseChrg jet < c.m_chrg_bins.length) := by
  obtain ⟨t, ht⟩ : ∃ t, c.spinIndices jet = HistManager.Int :: t := ⟨_, rfl⟩
  have hbound : ∀ (bins : List (ℚ × ℚ)) (v : ℚ),
      binLoop bins v = 0 ∨ binLoop bins v < bins.length := by
    intro bins v
    rw [binLoop_eq_lastMatch]
    cases hk : lastMatch? bins v with
    | none => exact Or.inl rfl
    | some k => exact Or.inr (by simpa using lastMatch?_lt_length hk)
  have hbase : ∀ (d : Bool) (bins : List (ℚ × ℚ)) (v : ℚ),
      (if d then binLoop bins v else 0) = 0
        ∨ (if d then binLoop bins v else 0) < bins.length := by
    intro d bins v
    cases d with
    | false => exact Or.inl (by simp)
    | true => simpa using hbound bins v
  refine ⟨?_, ?_, ?_, ?_, ?_, ?_, ?_, ?_, ?_⟩
  · intro idx hidx
    rw [getHistIndices_eq_flatMap, List.mem_flatMap] at hidx
    obtain ⟨s, _, hmem⟩ := hidx
    simp only [Calculator.spinBlock, List.mem_cons, List.not_mem_nil,
      or_false] at hmem
    rcases hmem with rfl | rfl | rfl | rfl <;>
      exact ⟨by simp, by simp, rfl⟩
  · rw [getHistIndices_eq_flatMap, ht, List.flatMap_cons,
      List.getElem?_append_left (by simp [Calculator.spinBlock])]
    simp [Calculator.spinBlock]
  · intro h k hk
    rw [Calculator.basePt, if_pos h, binLoop_eq_lastMatch, hk]
    exact ⟨rfl, lastMatch?_lt_length hk⟩
  · intro h k hk
    rw [Calculator.baseChrg, if_pos h, binLoop_eq_lastMatch, hk]
    exact ⟨rfl, lastMatch?_lt_length hk⟩
  · intro h
    simp [Calculator.baseCf, h]
  · intro h
    cases hd : c.do_cfjet_bins with
    | false => simp [Calculator.baseCf, hd]
    | true => simp [Calculator.baseCf, hd, binLoop_eq_lastMatch, h]
  · exact hbase c.do_cfjet_bins c.m_cfjet_bins jet.cf
  · exact hbase c.do_ptjet_bins c.m_ptjet_bins jet.pt
  · exact hbase c.do_charge_bins c.m_chrg_bins jet.charge

/-- C10 witness: at the concrete configuration, the integrated slot carries
the size sentinels, and the resolved pt ordinal 1 sits strictly below the
pt sentinel 2. -/
theorem c10_witness :
    ((cfgW.GetHistIndices jetW)[0]? =
      some ⟨cfgW.m_ptjet_bins.length, cfgW.baseCf jetW, cfgW.m_chrg_bins.length,
        HistManager.Int⟩)
    ∧ (cfgW.basePt jetW = 1 ∧ cfgW.basePt jetW < cfgW.m_ptjet_bins.length) := by
  have h := c10_sentinel_invariants cfgW jetW
  refine ⟨h.2.1, ?_⟩
  have hk : lastMatch? cfgW.m_ptjet_bins jetW.pt = some 1 := by
    norm_num [lastMatch?, inRange, cfgW, jetW]
  exact h.2.2.1 rfl 1 hk

/-- C5 (amended): `GetWrappedDoubledHadronAngle` applies at most one
adjustment of ±π or ±2π chosen by a single conditional chain — the result
always differs from the input by an element of {0, −π, −2π, +π, +2π} — but
the original range claim fails on [-10π, 10π] (see the counterexample at
3π): what holds is that for inputs in [-5π/2, 5π/2] the result lies in the
CLOSED interval [-π/2, π/2] (the boundary points, e.g. input π/2, map to
the endpoints, so the open interval is also not attained there). -/
theorem c5_wrap_doubled (angle : ℝ) :
    (Tools.GetWrappedDoubledHadronAngle angle = angle
      ∨ Tools.GetWrappedDoubledHadronAngle angle = angle - Real.pi
      ∨ Tools.GetWrappedDoubledHadronAngle angle = angle - 2 * Real.pi
      ∨ Tools.GetWrappedDoubledHadronAngle angle = angle + Real.pi
      ∨ Tools.GetWrappedDoubledHadronAngle angle = angle + 2 * Real.pi)
    ∧ (-(5 * Real.pi / 2) ≤ angle → angle ≤ 5 * Real.pi / 2 →
        -(Real.pi / 2) ≤ Tools.GetWrappedDoubledHadronAngle angle
        ∧ Tools.GetWrappedDoubledHadronAngle angle ≤ Real.pi / 2) := by
  have hpi := Real.pi_pos
  simp only [Tools.GetWrappedDoubledHadronAngle]
  split_ifs with hA hB hC hD
  · obtain ⟨hA1, hA2⟩ := hA
    exact ⟨Or.inr (Or.inl rfl), fun h1 h2 => ⟨by linarith, by linarith⟩⟩
  · exact ⟨Or.inr (Or.inr (Or.inl rfl)), fun h1 h2 => ⟨by linarith, by linarith⟩⟩
  · obtain ⟨hC1, hC2⟩ := hC
    exact ⟨Or.inr (Or.inr (Or.inr (Or.inl rfl))),
      fun h1 h2 => ⟨by linarith, by linarith⟩⟩
  · exact ⟨Or.inr (Or.inr (Or.inr (Or.inr rfl))),
      fun h1 h2 => ⟨by linarith, by linarith⟩⟩
  · refine ⟨Or.inl rfl, fun h1 h2 => ⟨?_, ?_⟩⟩
    · by_contra hc
      push_neg at hc hD
      exact hC ⟨by linarith, by linarith⟩
    · by_contra hc
      push_neg at hc hB
      exact hA ⟨by linarith, by linarith⟩

/-- C5 counterexample: 3π lies in the claim's swept domain [-10π, 10π], yet
the single-adjustment chain only subtracts 2π, returning π, which is outside
the claimed open interval (-π/2, π/2). -/
theorem c5_counterexample :
    -(10 * Real.pi) ≤ 3 * Real.pi ∧ 3 * Real.pi ≤ 10 * Real.pi
    ∧ Tools.GetWrappedDoubledHadronAngle (3 * Real.pi) = Real.pi
    ∧ ¬ Tools.GetWrappedDoubledHadronAngle (3 * Real.pi) < Real.pi / 2 := by
  have hpi := Real.pi_pos
  have hval : Tools.GetWrappedDoubledHadronAngle (3 * Real.pi) = Real.pi := by
    simp only [Tools.GetWrappedDoubledHadronAngle]
    have hno : ¬(3 * Real.pi > Real.pi / 2 ∧ 3 * Real.pi ≤ 3 * (Real.pi / 2)) := by
      rintro ⟨h1, h2⟩
      linarith
    have hyes : 3 * Real.pi > 3 * (Real.pi / 2) := by linarith
    rw [if_neg hno, if_pos hyes]
    ring
  refine ⟨by linarith, by linarith, hval, ?_⟩
  rw [hval]
  push_neg
  linarith

/-- C5 witness: the amended theorem applied at angle 0, whose wrap is within
the closed interval. -/
theorem c5_witness :
    -(Real.pi / 2) ≤ Tools.GetWrappedDoubledHadronAngle 0
    ∧ Tools.GetWrappedDoubledHadronAngle 0 ≤ Real.pi / 2 := by
  have hpi := Real.pi_pos
  exact (c5_wrap_doubled 0).2 (by linarith) (by linarith)

/-- C9 witness: the theorem applied at base 10, x = 2, and the log-mode
range [1, 2] with one bin. -/
theorem c9_witness :
    Tools.Exponentiate 10 (Tools.Log 10 2) = 2
    ∧ Tools.GetBinEdges 10 1 1 2 Axis.Log =
        Except.ok ((Tools.edgesLoop 1 (Tools.Log 10 1)
          ((Tools.Log 10 2 - Tools.Log 10 1) / ((1 : ℕ) : ℝ))).map
            (Tools.Exponentiate 10)) := by
  have h := c9_log_exp_consistency 10 2 1 1 2 (by norm_num) (by norm_num)
    (by norm_num) (by norm_num) (by norm_num)
  exact ⟨h.1, h.2⟩

end PHEnergyCorrelator
